import Mathlib

/-!
Shallow embedding of `src/daily_job_search_automation.py`.

The script is a linear batch job: a paginated Google Custom Search client
(`search_google_cse`, `gather_results`), an HTML digest formatter
(`format_email_html`, using Python's `html.escape`), an SMTP sender, and an
orchestrating `main` that first checks the required environment variables.

Modelling conventions:
* The search API is an oracle `Api : query → key → cx → num → start → items`;
  quantifying over the oracle quantifies over every sequence of responses.
* The `while` loop of `gather_results` is embedded with explicit fuel so that
  every definition is executable; fuel sufficiency (the loop terminates within
  `max_total + 1` iterations) is proved as a theorem.
* The clock read by `format_email_html` (`datetime.now(...)` rendered by
  `strftime`) is injected as the string parameter `nowStr`.
* Side effects of `main` (console prints, HTTP calls, the SMTP submission)
  are reified as a trace of `Effect` values; `main` returning a trace models
  the Python function returning normally (exit without error).
-/

/-- A raw item of the JSON `items` array returned by the search API; the code
reads its `title`, `link`, `snippet` fields with `.get`, so each is optional. -/
structure RawItem where
  title : Option String
  link : Option String
  snippet : Option String
deriving DecidableEq, Repr

/-- The record appended by `gather_results`:
`{'title': it.get('title'), 'link': it.get('link'), 'snippet': it.get('snippet')}`. -/
structure SearchResult where
  title : Option String
  link : Option String
  snippet : Option String
deriving DecidableEq, Repr

/-- Field extraction performed in the loop body of `gather_results`. -/
def extractResult (it : RawItem) : SearchResult :=
  { title := it.title, link := it.link, snippet := it.snippet }

/-- Python truthiness `x or d` on an optional string: `None` and `''` fall back
to the default `d`. Used as `r.get('title') or 'No title'` etc. -/
def pyOr (v : Option String) (d : String) : String :=
  match v with
  | none => d
  | some s => if s = "" then d else s

/-- The character `&`. -/
def ampChar : Char := '&'

/-- The character `<`. -/
def ltChar : Char := '<'

/-- The character `>`. -/
def gtChar : Char := '>'

/-- The double-quote character. -/
def quoteChar : Char := Char.ofNat 34

/-- The apostrophe character. -/
def aposChar : Char := Char.ofNat 39

/-- One double-quote as a string (used in the `<a href="...">` template). -/
def qm : String := String.singleton quoteChar

/-- Per-character action of Python's `html.escape` (with its default
`quote=True`): `&`, `<`, `>`, `"`, `'` become entities, all else is kept.
`html.escape` performs the textual replacements with `&` first, so the
sequential replacement is equivalent to this independent per-character map. -/
def escapeChar (c : Char) : List Char :=
  if c = ampChar then "&amp;".data
  else if c = ltChar then "&lt;".data
  else if c = gtChar then "&gt;".data
  else if c = quoteChar then "&quot;".data
  else if c = aposChar then "&#x27;".data
  else [c]

/-- `html.escape` on a character list. -/
def escapeList : List Char → List Char
  | [] => []
  | c :: cs => escapeChar c ++ escapeList cs

/-- `html.escape` on strings, as used by `format_email_html`. -/
def escape (s : String) : String := ⟨escapeList s.data⟩

/-- Python's `'\n'.join(lines)`. -/
def joinNl : List String → String
  | [] => ""
  | [l] => l
  | l :: ls => l ++ "\n" ++ joinNl ls

/-- The `<li>` line built for one result `r`:
`f'<li><a href="{link}">{title}</a><br/><small>{snippet}</small></li>'` with
`title = escape(r.get('title') or 'No title')`, `link = escape(r.get('link') or '')`,
`snippet = escape((r.get('snippet') or '').strip())`. -/
def formatItem (r : SearchResult) : String :=
  "<li><a href=" ++ qm ++ escape (pyOr r.link "") ++ qm ++ ">"
    ++ escape (pyOr r.title "No title")
    ++ "</a><br/><small>" ++ escape ((pyOr r.snippet "").trim) ++ "</small></li>"

/-- `format_email_html(results, query)` with the clock reading injected:
`nowStr` stands for `now.strftime('%Y-%m-%d %H:%M %Z')`. -/
def format_email_html (results : List SearchResult) (query : String)
    (nowStr : String) : String :=
  let header := "<h2>Job search results: " ++ escape query ++ "</h2>"
  let stamp := "<p>Search run at " ++ nowStr ++ " (IST)</p>"
  let body :=
    if results.isEmpty then ["<p>No results found.</p>"]
    else ["<ol>"] ++ results.map formatItem ++ ["</ol>"]
  let footer :=
    "<hr/><p>Automation generated - tweak the queries or sources in the script as needed.</p>"
  joinNl ([header, stamp] ++ body ++ [footer])

/-- The search API as an oracle: given the request parameters
`q` (query), `key`, `cx`, `num`, `start` it yields the `items` array. -/
abbrev Api : Type := String → String → String → Nat → Nat → List RawItem

/-- `search_google_cse(query, api_key, cx, num, start)`: issues one GET with
`num = min(num, 10)` ("API returns up to 10 per request") and returns the
`items` list of the response. -/
def search_google_cse (api : Api) (query apiKey cx : String)
    (num start : Nat) : List RawItem :=
  api query apiKey cx (min num 10) start

/-- The `while len(results) < max_total` loop of `gather_results`, with
explicit fuel. Returns the accumulated results together with the trace of
calls issued, each recorded as `(num, start)` with
`num = min(10, max_total - len(results))`. A call returning zero items stops
the loop (`if not items: break`); otherwise all items are appended and
`start += len(items)`. -/
def gatherAux (api : Api) (query apiKey cx : String) (maxTotal : Nat) :
    Nat → List SearchResult → Nat → List SearchResult × List (Nat × Nat)
  | 0, results, _ => (results, [])
  | fuel + 1, results, start =>
      if results.length < maxTotal then
        let num := min 10 (maxTotal - results.length)
        let items := search_google_cse api query apiKey cx num start
        if items = [] then
          (results, [(num, start)])
        else
          let step := gatherAux api query apiKey cx maxTotal fuel
            (results ++ items.map extractResult) (start + items.length)
          (step.1, (num, start) :: step.2)
      else (results, [])

/-- `gather_results(query, api_key, cx, max_total)`: run the loop from
`results = []`, `start = 1`. Fuel `maxTotal + 1` is sufficient, as proved in
`gatherAux_fuel_irrelevant`. -/
def gather_results (api : Api) (query apiKey cx : String)
    (maxTotal : Nat) : List SearchResult :=
  (gatherAux api query apiKey cx maxTotal (maxTotal + 1) [] 1).1

/-- The trace of `(num, start)` parameters of the API calls that
`gather_results` issues. -/
def gatherCalls (api : Api) (query apiKey cx : String)
    (maxTotal : Nat) : List (Nat × Nat) :=
  (gatherAux api query apiKey cx maxTotal (maxTotal + 1) [] 1).2

/-- The five required environment variables, each as read by `os.getenv`
(absent ↦ `none`). -/
structure Config where
  CSE_API_KEY : Option String
  CSE_CX : Option String
  EMAIL_USER : Option String
  EMAIL_PASS : Option String
  RECIPIENT_EMAIL : Option String
deriving DecidableEq, Repr

/-- Python truthiness of an optional string: `None` and `''` are falsy. -/
def truthy (v : Option String) : Bool :=
  match v with
  | none => false
  | some s => !(s = "")

/-- The guard of `main`: `CSE_API_KEY and CSE_CX and EMAIL_USER and
EMAIL_PASS and RECIPIENT_EMAIL` as a boolean. -/
def configOk (cfg : Config) : Bool :=
  truthy cfg.CSE_API_KEY && truthy cfg.CSE_CX && truthy cfg.EMAIL_USER
    && truthy cfg.EMAIL_PASS && truthy cfg.RECIPIENT_EMAIL

/-- Observable side effects of one run of `main`. -/
inductive Effect where
  | printMsg (s : String)
  | httpGet (query apiKey cx : String) (num start : Nat)
  | smtpSend (sender recipient subject body : String)
deriving DecidableEq, Repr

/-- Network-touching effects (HTTP GET to the search API, SMTP submission). -/
def isNetworkEffect : Effect → Bool
  | .printMsg _ => false
  | .httpGet _ _ _ _ _ => true
  | .smtpSend _ _ _ _ => true

/-- The diagnostic printed by `main` when a required variable is missing. -/
def missingEnvMsg : String :=
  "Missing one of required environment variables: CSE_API_KEY, CSE_CX, EMAIL_USER, EMAIL_PASS, RECIPIENT_EMAIL"

namespace Script

/-- `main()`, reified as the trace of effects of one run. `query` and
`maxResults` are the resolved `JOB_QUERY` / `MAX_RESULTS` settings, `nowStr`
the injected clock rendering and `dateStr` the `%Y-%m-%d` date used in the
subject line. Returning a trace models returning without error; the guard
branch returns after printing the diagnostic, performing nothing else. -/
def main (api : Api) (cfg : Config) (query : String) (maxResults : Nat)
    (nowStr dateStr : String) : List Effect :=
  if configOk cfg then
    let apiKey := cfg.CSE_API_KEY.getD ""
    let cx := cfg.CSE_CX.getD ""
    let results := gather_results api query apiKey cx maxResults
    let calls := gatherCalls api query apiKey cx maxResults
    let html := format_email_html results query nowStr
    let subject := "Daily job digest — " ++ query ++ " — " ++ dateStr
    [Effect.printMsg "Gathering job results..."]
      ++ calls.map (fun p => Effect.httpGet query apiKey cx p.1 p.2)
      ++ [Effect.printMsg ("Found " ++ toString results.length ++ " results"),
          Effect.printMsg "Sending email...",
          Effect.smtpSend (cfg.EMAIL_USER.getD "") (cfg.RECIPIENT_EMAIL.getD "") subject html,
          Effect.printMsg "Email sent."]
  else
    [Effect.printMsg missingEnvMsg]

end Script

/-- An API oracle with no results at all: every call answers with an empty
`items` array. -/
def apiEmpty : Api := fun _ _ _ _ _ => []

/-- An API oracle with unboundedly many results: every call answers with
exactly the requested number of items. -/
def apiFull : Api :=
  fun _ _ _ num _ =>
    List.replicate num { title := some "T", link := some "L", snippet := some "S" }

/-- A configuration with `CSE_API_KEY` absent. -/
def cfgMissing : Config :=
  { CSE_API_KEY := none, CSE_CX := some "cx", EMAIL_USER := some "u",
    EMAIL_PASS := some "p", RECIPIENT_EMAIL := some "r" }

/-- A configuration with `CSE_CX` set to the empty string. -/
def cfgEmptyVal : Config :=
  { CSE_API_KEY := some "k", CSE_CX := some "", EMAIL_USER := some "u",
    EMAIL_PASS := some "p", RECIPIENT_EMAIL := some "r" }

/-- `beginsWith p cs` is true when `p` is an initial segment of `cs`. -/
def beginsWith : List Char → List Char → Bool
  | [], _ => true
  | _ :: _, [] => false
  | p :: ps, c :: cs => (p == c) && beginsWith ps cs

/-- After an `&`, the remaining characters must spell one of the entities
produced by `html.escape`: `amp;`, `lt;`, `gt;`, `quot;` or `#x27;`. -/
def entityTail (cs : List Char) : Bool :=
  beginsWith "amp;".data cs || beginsWith "lt;".data cs
    || beginsWith "gt;".data cs || beginsWith "quot;".data cs
    || beginsWith "#x27;".data cs

/-- Every occurrence of `&` in the character list starts an escape entity;
an `&` not followed by an entity tail would be an unescaped ampersand. -/
def ampEscaped : List Char → Bool
  | [] => true
  | c :: cs => (!(c == ampChar) || entityTail cs) && ampEscaped cs

/-- The character list contains no raw `<` and no raw `>`. -/
def ltgtFree (cs : List Char) : Bool :=
  cs.all fun c => !(c == ltChar) && !(c == gtChar)

/-- Substring test: `containsSub needle hay` is true when `needle` occurs
contiguously inside `hay`. -/
def containsSub (needle : List Char) : List Char → Bool
  | [] => needle.isEmpty
  | c :: cs => beginsWith needle (c :: cs) || containsSub needle cs

/-- `hasPair x y cs` is true when `x` occurs immediately followed by `y`. -/
def hasPair (x y : Char) : List Char → Bool
  | c :: d :: cs => ((c == x) && (d == y)) || hasPair x y (d :: cs)
  | _ => false

/-- The last character of a list, if any. -/
def lastChar : List Char → Option Char
  | [] => none
  | [c] => some c
  | _ :: cs => lastChar cs

/-- One unfolding step of the loop body of `gatherAux`. -/
lemma gatherAux_step (api : Api) (q apiKey cx : String) (maxTotal fuel : Nat)
    (results : List SearchResult) (start : Nat) :
    gatherAux api q apiKey cx maxTotal (fuel + 1) results start
      = if results.length < maxTotal then
          if search_google_cse api q apiKey cx
              (min 10 (maxTotal - results.length)) start = [] then
            (results, [(min 10 (maxTotal - results.length), start)])
          else
            ((gatherAux api q apiKey cx maxTotal fuel
                (results ++ (search_google_cse api q apiKey cx
                  (min 10 (maxTotal - results.length)) start).map extractResult)
                (start + (search_google_cse api q apiKey cx
                  (min 10 (maxTotal - results.length)) start).length)).1,
              (min 10 (maxTotal - results.length), start) ::
                (gatherAux api q apiKey cx maxTotal fuel
                  (results ++ (search_google_cse api q apiKey cx
                    (min 10 (maxTotal - results.length)) start).map extractResult)
                  (start + (search_google_cse api q apiKey cx
                    (min 10 (maxTotal - results.length)) start).length)).2)
        else (results, []) := rfl

lemma gatherAux_succ (api : Api) (q apiKey cx : String) (maxTotal : Nat) :
    ∀ fuel results start, maxTotal - results.length < fuel →
      gatherAux api q apiKey cx maxTotal (fuel + 1) results start
        = gatherAux api q apiKey cx maxTotal fuel results start := by
  intro fuel
  induction fuel with
  | zero => exact fun results start h => absurd h (Nat.not_lt_zero _)
  | succ f ih =>
      intro results start h
      conv_lhs => rw [gatherAux_step]
      conv_rhs => rw [gatherAux_step]
      by_cases hlt : results.length < maxTotal
      · by_cases hempty :
            search_google_cse api q apiKey cx (min 10 (maxTotal - results.length)) start = []
        · simp only [if_pos hlt, if_pos hempty]
        · have hlen :
              0 < (search_google_cse api q apiKey cx
                (min 10 (maxTotal - results.length)) start).length :=
            List.length_pos.mpr hempty
          have hnew : maxTotal
              - (results ++ (search_google_cse api q apiKey cx
                  (min 10 (maxTotal - results.length)) start).map extractResult).length
              < f := by
            simp only [List.length_append, List.length_map]
            omega
          simp only [if_pos hlt, if_neg hempty]
          rw [ih _ _ hnew]
      · simp only [if_neg hlt]

lemma gatherAux_fuel_irrelevant (api : Api) (q apiKey cx : String) (maxTotal : Nat)
    (results : List SearchResult) (start : Nat) :
    ∀ fuel fuel2, maxTotal - results.length < fuel → maxTotal - results.length < fuel2 →
      gatherAux api q apiKey cx maxTotal fuel results start
        = gatherAux api q apiKey cx maxTotal fuel2 results start := by
  have base : ∀ n, gatherAux api q apiKey cx maxTotal
      (maxTotal - results.length + 1 + n) results start
      = gatherAux api q apiKey cx maxTotal (maxTotal - results.length + 1) results start := by
    intro n
    induction n with
    | zero => rfl
    | succ m ih =>
        have hstep := gatherAux_succ api q apiKey cx maxTotal
          (maxTotal - results.length + 1 + m) results start (by omega)
        calc gatherAux api q apiKey cx maxTotal
              (maxTotal - results.length + 1 + (m + 1)) results start
            = gatherAux api q apiKey cx maxTotal
              (maxTotal - results.length + 1 + m + 1) results start := by
              norm_num [Nat.add_assoc]
          _ = gatherAux api q apiKey cx maxTotal
              (maxTotal - results.length + 1 + m) results start := hstep
          _ = gatherAux api q apiKey cx maxTotal
              (maxTotal - results.length + 1) results start := ih
  intro fuel fuel2 h1 h2
  have e1 : fuel = maxTotal - results.length + 1 + (fuel - (maxTotal - results.length) - 1) := by
    omega
  have e2 : fuel2 = maxTotal - results.length + 1 + (fuel2 - (maxTotal - results.length) - 1) := by
    omega
  rw [e1, base, e2, base]

/-- C9: `gather_results` terminates for every requested maximum and every API
oracle: each loop iteration either breaks (zero items) or strictly increases
the accumulated count, which is bounded by the loop condition, so the loop
completes within `maxTotal + 1` iterations — any fuel beyond that bound is
never consumed and leaves the outcome unchanged. -/
theorem gather_results_terminates (api : Api) (query apiKey cx : String)
    (maxTotal fuel : Nat) (h : maxTotal < fuel) :
    gatherAux api query apiKey cx maxTotal fuel [] 1
      = gatherAux api query apiKey cx maxTotal (maxTotal + 1) [] 1 :=
  gatherAux_fuel_irrelevant api query apiKey cx maxTotal [] 1 fuel (maxTotal + 1)
    (by simpa using h) (by simp)

theorem gather_results_terminates_witness :
    gatherAux apiEmpty "q" "k" "c" 3 9 [] 1
      = gatherAux apiEmpty "q" "k" "c" 3 (3 + 1) [] 1 :=
  gather_results_terminates apiEmpty "q" "k" "c" 3 9 (by decide)

lemma gatherAux_length_le (api : Api) (q apiKey cx : String) (maxTotal : Nat)
    (hapi : ∀ q2 k2 c2 num start, (api q2 k2 c2 num start).length ≤ num) :
    ∀ fuel results start, results.length ≤ maxTotal →
      (gatherAux api q apiKey cx maxTotal fuel results start).1.length ≤ maxTotal := by
  intro fuel
  induction fuel with
  | zero => intro results start h; simpa [gatherAux] using h
  | succ f ih =>
      intro results start h
      by_cases hlt : results.length < maxTotal
      · by_cases hempty :
            search_google_cse api q apiKey cx (min 10 (maxTotal - results.length)) start = []
        · simp only [gatherAux, if_pos hlt, if_pos hempty]
          exact h
        · have hle : (search_google_cse api q apiKey cx
              (min 10 (maxTotal - results.length)) start).length
              ≤ min (min 10 (maxTotal - results.length)) 10 :=
            hapi q apiKey cx (min (min 10 (maxTotal - results.length)) 10) start
          simp only [gatherAux, if_pos hlt, if_neg hempty]
          apply ih
          simp only [List.length_append, List.length_map]
          omega
      · simp only [gatherAux, if_neg hlt]
        exact h

/-- C1: whenever the API honours the `num` parameter (every response carries
at most the requested number of items), the list returned by `gather_results`
has length at most `maxTotal` — possibly fewer, never more. -/
theorem gather_results_length_le (api : Api) (query apiKey cx : String)
    (maxTotal : Nat)
    (hapi : ∀ q k c num start, (api q k c num start).length ≤ num) :
    (gather_results api query apiKey cx maxTotal).length ≤ maxTotal :=
  gatherAux_length_le api query apiKey cx maxTotal hapi (maxTotal + 1) [] 1 (by simp)

theorem gather_results_length_le_witness :
    (gather_results apiFull "jobs" "key" "cx" 3).length ≤ 3 :=
  gather_results_length_le apiFull "jobs" "key" "cx" 3
    (fun _ _ _ _ _ => by simp [apiFull])

/-- C4: from any loop state with fewer than `maxTotal` accumulated results, if
the call issued at that state returns zero items, the loop breaks: that call is
the last one and the results accumulated so far are returned unchanged. -/
theorem gather_stops_on_empty (api : Api) (query apiKey cx : String)
    (maxTotal fuel : Nat) (results : List SearchResult) (start : Nat)
    (hlt : results.length < maxTotal)
    (hempty : search_google_cse api query apiKey cx
      (min 10 (maxTotal - results.length)) start = []) :
    gatherAux api query apiKey cx maxTotal (fuel + 1) results start
      = (results, [(min 10 (maxTotal - results.length), start)]) := by
  simp [gatherAux, hlt, hempty]

theorem gather_stops_on_empty_witness :
    gatherAux apiEmpty "q" "k" "c" 5 1 [] 1 = ([], [(5, 1)]) :=
  gather_stops_on_empty apiEmpty "q" "k" "c" 5 0 [] 1 (by decide) rfl

lemma ceil_step (r : Nat) (h : 1 ≤ r) :
    (r - min 10 r + 9) / 10 + 1 = (r + 9) / 10 := by
  rcases le_total r 10 with hr | hr
  · have h1 : r - min 10 r = 0 := by omega
    have h2 : r + 9 = (r - 1) + 10 := by omega
    rw [h1, h2, Nat.add_div_right _ (by norm_num),
      Nat.div_eq_of_lt (show r - 1 < 10 by omega)]
  · have h1 : r - min 10 r = r - 10 := by omega
    have h2 : r + 9 = (r - 10 + 9) + 10 := by omega
    rw [h1, h2, Nat.add_div_right _ (by norm_num)]

lemma gatherAux_full_pages (api : Api) (q apiKey cx : String) (maxTotal : Nat)
    (hfull : ∀ q2 k2 c2 num start, (api q2 k2 c2 num start).length = num) :
    ∀ fuel results start, maxTotal - results.length < fuel →
      (gatherAux api q apiKey cx maxTotal fuel results start).1.length
          = max results.length maxTotal ∧
        (gatherAux api q apiKey cx maxTotal fuel results start).2.length
          = (maxTotal - results.length + 9) / 10 := by
  intro fuel
  induction fuel with
  | zero => exact fun results start h => absurd h (Nat.not_lt_zero _)
  | succ f ih =>
      intro results start h
      by_cases hlt : results.length < maxTotal
      · have hilen : (search_google_cse api q apiKey cx
            (min 10 (maxTotal - results.length)) start).length
            = min 10 (maxTotal - results.length) := by
          simp only [search_google_cse, hfull]
          omega
        have hne : search_google_cse api q apiKey cx
            (min 10 (maxTotal - results.length)) start ≠ [] := by
          intro hnil
          rw [hnil] at hilen
          simp only [List.length_nil] at hilen
          omega
        have hnew : maxTotal
            - (results ++ (search_google_cse api q apiKey cx
                (min 10 (maxTotal - results.length)) start).map extractResult).length
            < f := by
          simp only [List.length_append, List.length_map, hilen]
          omega
        obtain ⟨ih1, ih2⟩ := ih (results ++ (search_google_cse api q apiKey cx
            (min 10 (maxTotal - results.length)) start).map extractResult)
          (start + (search_google_cse api q apiKey cx
            (min 10 (maxTotal - results.length)) start).length) hnew
        simp only [gatherAux, if_pos hlt, if_neg hne]
        constructor
        · rw [ih1]
          simp only [List.length_append, List.length_map, hilen]
          omega
        · simp only [List.length_cons, ih2]
          simp only [List.length_append, List.length_map, hilen]
          have harg : maxTotal
              - (results.length + min 10 (maxTotal - results.length))
              = (maxTotal - results.length) - min 10 (maxTotal - results.length) := by
            omega
          rw [harg]
          exact ceil_step (maxTotal - results.length) (by omega)
      · have h0 : maxTotal - results.length = 0 := by omega
        simp only [gatherAux, if_neg hlt, h0, List.length_nil]
        constructor
        · omega
        · norm_num

/-- C5 (amended): when every API response contains exactly the requested
number of items, `gather_results` collects `N = maxTotal` results and issues
exactly `ceil(N/10) = (N + 9) / 10` calls; each call requests
`num = min(10, maxTotal - collected)` (recorded in the trace by `gatherAux`).
With shorter responses the call count can exceed `ceil(N/10)`: in particular
an empty response costs one call and contributes no results. -/
theorem gather_full_pages_ceil (api : Api) (query apiKey cx : String)
    (maxTotal : Nat)
    (hfull : ∀ q k c num start, (api q k c num start).length = num) :
    (gather_results api query apiKey cx maxTotal).length = maxTotal ∧
      (gatherCalls api query apiKey cx maxTotal).length = (maxTotal + 9) / 10 := by
  have h := gatherAux_full_pages api query apiKey cx maxTotal hfull
    (maxTotal + 1) [] 1 (by simp)
  simpa [gather_results, gatherCalls] using h

theorem gather_full_pages_ceil_witness :
    (gather_results apiFull "q" "k" "c" 25).length = 25 ∧
      (gatherCalls apiFull "q" "k" "c" 25).length = (25 + 9) / 10 :=
  gather_full_pages_ceil apiFull "q" "k" "c" 25
    (fun _ _ _ _ _ => by simp [apiFull])

/-- C6: `format_email_html` is deterministic: two runs on identical results
lists, identical query and identical injected clock reading produce
byte-identical HTML documents (the only impurity of the Python function, the
clock, is the `nowStr` parameter). -/
theorem format_email_html_deterministic (results1 results2 : List SearchResult)
    (query1 query2 nowStr1 nowStr2 : String)
    (hr : results1 = results2) (hq : query1 = query2) (hn : nowStr1 = nowStr2) :
    format_email_html results1 query1 nowStr1
      = format_email_html results2 query2 nowStr2 := by
  rw [hr, hq, hn]

theorem format_email_html_deterministic_witness :
    format_email_html [] "jobs" "2026-10-12 13:00 UTC+05:30"
      = format_email_html [] "jobs" "2026-10-12 13:00 UTC+05:30" :=
  format_email_html_deterministic [] [] "jobs" "jobs"
    "2026-10-12 13:00 UTC+05:30" "2026-10-12 13:00 UTC+05:30" rfl rfl rfl

/-- C2: if any required configuration value is absent, `main` prints the
diagnostic and returns (models the Python `return`, exiting without error),
performing zero HTTP calls and zero mail-submission calls. -/
theorem main_absent_env (api : Api) (cfg : Config) (query : String)
    (maxResults : Nat) (nowStr dateStr : String)
    (h : cfg.CSE_API_KEY = none ∨ cfg.CSE_CX = none ∨ cfg.EMAIL_USER = none
      ∨ cfg.EMAIL_PASS = none ∨ cfg.RECIPIENT_EMAIL = none) :
    Script.main api cfg query maxResults nowStr dateStr
        = [Effect.printMsg missingEnvMsg] ∧
      ∀ e ∈ Script.main api cfg query maxResults nowStr dateStr,
        isNetworkEffect e = false := by
  have hok : configOk cfg = false := by
    rcases h with h | h | h | h | h <;> simp [configOk, truthy, h]
  refine ⟨by simp [Script.main, hok], ?_⟩
  intro e he
  simp only [Script.main, hok, Bool.false_eq_true, if_false, List.mem_singleton] at he
  rw [he]
  rfl

theorem main_absent_env_witness :
    Script.main apiEmpty cfgMissing "jobs" 10 "t" "d"
        = [Effect.printMsg missingEnvMsg] ∧
      ∀ e ∈ Script.main apiEmpty cfgMissing "jobs" 10 "t" "d",
        isNetworkEffect e = false :=
  main_absent_env apiEmpty cfgMissing "jobs" 10 "t" "d" (Or.inl rfl)

/-- C10: a required configuration value that is present but equal to the empty
string is treated exactly like an absent one — the guard tests Python
truthiness, under which `''` is falsy — so `main` takes the same soft-abort
branch: diagnostic printed, normal return, no network effects. -/
theorem main_empty_env (api : Api) (cfg : Config) (query : String)
    (maxResults : Nat) (nowStr dateStr : String)
    (h : cfg.CSE_API_KEY = some "" ∨ cfg.CSE_CX = some "" ∨ cfg.EMAIL_USER = some ""
      ∨ cfg.EMAIL_PASS = some "" ∨ cfg.RECIPIENT_EMAIL = some "") :
    Script.main api cfg query maxResults nowStr dateStr
        = [Effect.printMsg missingEnvMsg] ∧
      ∀ e ∈ Script.main api cfg query maxResults nowStr dateStr,
        isNetworkEffect e = false := by
  have hok : configOk cfg = false := by
    rcases h with h | h | h | h | h <;> simp [configOk, truthy, h]
  refine ⟨by simp [Script.main, hok], ?_⟩
  intro e he
  simp only [Script.main, hok, Bool.false_eq_true, if_false, List.mem_singleton] at he
  rw [he]
  rfl

theorem main_empty_env_witness :
    Script.main apiEmpty cfgEmptyVal "jobs" 10 "t" "d"
        = [Effect.printMsg missingEnvMsg] ∧
      ∀ e ∈ Script.main apiEmpty cfgEmptyVal "jobs" 10 "t" "d",
        isNetworkEffect e = false :=
  main_empty_env apiEmpty cfgEmptyVal "jobs" 10 "t" "d" (Or.inr (Or.inl rfl))

lemma beginsWith_append (p cs t : List Char) (h : beginsWith p cs = true) :
    beginsWith p (cs ++ t) = true := by
  induction p generalizing cs with
  | nil => rfl
  | cons a ps ih =>
      cases cs with
      | nil => simp [beginsWith] at h
      | cons c cs2 =>
          simp only [beginsWith, Bool.and_eq_true] at h
          simp only [List.cons_append, beginsWith, Bool.and_eq_true]
          exact ⟨h.1, ih cs2 h.2⟩

lemma beginsWith_self (p r : List Char) : beginsWith p (p ++ r) = true := by
  induction p with
  | nil => rfl
  | cons a ps ih => simp [beginsWith, ih]

lemma entityTail_append (cs t : List Char) (h : entityTail cs = true) :
    entityTail (cs ++ t) = true := by
  simp only [entityTail, Bool.or_eq_true] at h ⊢
  rcases h with (((h | h) | h) | h) | h <;> simp [beginsWith_append _ _ t h]

lemma ampEscaped_cons (c : Char) (cs : List Char) (hc : (c == ampChar) = false)
    (h : ampEscaped cs = true) : ampEscaped (c :: cs) = true := by
  simp [ampEscaped, hc, h]

lemma ampEscaped_amp_entity (cs : List Char) (h : ampEscaped cs = true)
    (ht : entityTail cs = true) : ampEscaped (ampChar :: cs) = true := by
  simp [ampEscaped, h, ht]

lemma ampEscaped_safeChars (l rest : List Char)
    (hl : l.all (fun c => !(c == ampChar)) = true) (h : ampEscaped rest = true) :
    ampEscaped (l ++ rest) = true := by
  induction l with
  | nil => simpa using h
  | cons a t ih =>
      simp only [List.all_cons, Bool.and_eq_true] at hl
      exact ampEscaped_cons a _ (by simpa using hl.1) (ih hl.2)

lemma ampEscaped_append (a b : List Char) (ha : ampEscaped a = true)
    (hb : ampEscaped b = true) : ampEscaped (a ++ b) = true := by
  induction a with
  | nil => simpa using hb
  | cons c cs ih =>
      simp only [ampEscaped, Bool.and_eq_true, Bool.or_eq_true] at ha
      obtain ⟨h1, h2⟩ := ha
      simp only [List.cons_append, ampEscaped, Bool.and_eq_true, Bool.or_eq_true]
      refine ⟨?_, ih h2⟩
      rcases h1 with h1 | h1
      · exact Or.inl h1
      · exact Or.inr (entityTail_append _ _ h1)

lemma ampEscaped_escapeChar (c : Char) (rest : List Char)
    (h : ampEscaped rest = true) : ampEscaped (escapeChar c ++ rest) = true := by
  unfold escapeChar
  split_ifs with h1 h2 h3 h4 h5
  · show ampEscaped (ampChar :: ("amp;".data ++ rest)) = true
    exact ampEscaped_amp_entity _ (ampEscaped_safeChars "amp;".data rest (by decide) h)
      (by simp only [entityTail, beginsWith_self, Bool.true_or, Bool.or_true])
  · show ampEscaped (ampChar :: ("lt;".data ++ rest)) = true
    exact ampEscaped_amp_entity _ (ampEscaped_safeChars "lt;".data rest (by decide) h)
      (by simp only [entityTail, beginsWith_self, Bool.true_or, Bool.or_true])
  · show ampEscaped (ampChar :: ("gt;".data ++ rest)) = true
    exact ampEscaped_amp_entity _ (ampEscaped_safeChars "gt;".data rest (by decide) h)
      (by simp only [entityTail, beginsWith_self, Bool.true_or, Bool.or_true])
  · show ampEscaped (ampChar :: ("quot;".data ++ rest)) = true
    exact ampEscaped_amp_entity _ (ampEscaped_safeChars "quot;".data rest (by decide) h)
      (by simp only [entityTail, beginsWith_self, Bool.true_or, Bool.or_true])
  · show ampEscaped (ampChar :: ("#x27;".data ++ rest)) = true
    exact ampEscaped_amp_entity _ (ampEscaped_safeChars "#x27;".data rest (by decide) h)
      (by simp only [entityTail, beginsWith_self, Bool.true_or, Bool.or_true])
  · exact ampEscaped_cons c rest (beq_eq_false_iff_ne.mpr h1) h

lemma ampEscaped_escapeList (cs : List Char) : ampEscaped (escapeList cs) = true := by
  induction cs with
  | nil => rfl
  | cons c t ih =>
      show ampEscaped (escapeChar c ++ escapeList t) = true
      exact ampEscaped_escapeChar c _ ih

lemma ampEscaped_escape (s : String) : ampEscaped (escape s).data = true :=
  ampEscaped_escapeList s.data

lemma string_data_append (s t : String) : (s ++ t).data = s.data ++ t.data := rfl

lemma ampEscaped_str_append (s t : String) (hs : ampEscaped s.data = true)
    (ht : ampEscaped t.data = true) : ampEscaped (s ++ t).data = true := by
  rw [string_data_append]
  exact ampEscaped_append _ _ hs ht

lemma ltgtFree_append (a b : List Char) (ha : ltgtFree a = true)
    (hb : ltgtFree b = true) : ltgtFree (a ++ b) = true := by
  simp only [ltgtFree, List.all_append, Bool.and_eq_true]
  exact ⟨ha, hb⟩

lemma ltgtFree_escapeChar (c : Char) : ltgtFree (escapeChar c) = true := by
  unfold escapeChar
  split_ifs with h1 h2 h3 h4 h5
  · decide
  · decide
  · decide
  · decide
  · decide
  · have hc2 : (c == ltChar) = false := beq_eq_false_iff_ne.mpr h2
    have hc3 : (c == gtChar) = false := beq_eq_false_iff_ne.mpr h3
    simp [ltgtFree, hc2, hc3]

lemma ltgtFree_escapeList (cs : List Char) : ltgtFree (escapeList cs) = true := by
  induction cs with
  | nil => rfl
  | cons c t ih =>
      show ltgtFree (escapeChar c ++ escapeList t) = true
      exact ltgtFree_append _ _ (ltgtFree_escapeChar c) ih

lemma ltgtFree_escape (s : String) : ltgtFree (escape s).data = true :=
  ltgtFree_escapeList s.data

lemma ampEscaped_formatItem (r : SearchResult) :
    ampEscaped (formatItem r).data = true := by
  unfold formatItem
  exact ampEscaped_str_append _ _ (ampEscaped_str_append _ _ (ampEscaped_str_append _ _
    (ampEscaped_str_append _ _ (ampEscaped_str_append _ _ (ampEscaped_str_append _ _
      (ampEscaped_str_append _ _ (ampEscaped_str_append _ _ (by decide) (by decide))
        (ampEscaped_escape _)) (by decide)) (by decide)) (ampEscaped_escape _))
      (by decide)) (ampEscaped_escape _)) (by decide)

lemma ampEscaped_joinNl (lines : List String)
    (h : ∀ l ∈ lines, ampEscaped l.data = true) :
    ampEscaped (joinNl lines).data = true := by
  induction lines with
  | nil => rfl
  | cons l ls ih =>
      cases ls with
      | nil => exact h l (by simp)
      | cons l2 ls2 =>
          show ampEscaped ((l ++ "\n" ++ joinNl (l2 :: ls2))).data = true
          exact ampEscaped_str_append _ _
            (ampEscaped_str_append _ _ (h l (by simp)) (by decide))
            (ih fun x hx => h x (by simp [hx]))

lemma ampEscaped_format_email_html (results : List SearchResult)
    (query nowStr : String) (hnow : ampEscaped nowStr.data = true) :
    ampEscaped (format_email_html results query nowStr).data = true := by
  have hheader : ampEscaped ("<h2>Job search results: " ++ escape query ++ "</h2>").data
      = true :=
    ampEscaped_str_append _ _
      (ampEscaped_str_append _ _ (by decide) (ampEscaped_escape _)) (by decide)
  have hstamp : ampEscaped ("<p>Search run at " ++ nowStr ++ " (IST)</p>").data = true :=
    ampEscaped_str_append _ _ (ampEscaped_str_append _ _ (by decide) hnow) (by decide)
  cases results with
  | nil =>
      simp only [format_email_html, List.isEmpty_nil, if_true]
      apply ampEscaped_joinNl
      intro l hl
      simp only [List.cons_append, List.nil_append, List.mem_cons,
        List.not_mem_nil, or_false] at hl
      rcases hl with rfl | rfl | rfl | rfl
      · exact hheader
      · exact hstamp
      · decide
      · decide
  | cons r rs =>
      simp only [format_email_html, List.isEmpty_cons, Bool.false_eq_true, if_false]
      apply ampEscaped_joinNl
      intro l hl
      simp only [List.append_assoc, List.cons_append, List.nil_append, List.mem_cons,
        List.mem_append, List.mem_map, List.not_mem_nil, or_false] at hl
      rcases hl with rfl | rfl | rfl | ⟨a, _, rfl⟩ | rfl | rfl
      · exact hheader
      · exact hstamp
      · decide
      · exact ampEscaped_formatItem a
      · decide
      · decide

/-- C3: no `<`, `>` or `&` of a title, link or snippet field (or of the
query) reaches the document unescaped. Concretely: (1) every `&` anywhere in
the document produced by `format_email_html` begins one of the escape
entities `&amp; &lt; &gt; &quot; &#x27;` — provided the injected clock string
carries no bare `&`, as the fixed `%Y-%m-%d %H:%M %Z` rendering never does —
and (2) the escaped fragments interpolated for the query and for each
result's title, link and snippet fields contain no `<` or `>` at all: those
characters are always emitted as entities. -/
theorem format_email_html_escapes (results : List SearchResult)
    (query nowStr : String) (hnow : ampEscaped nowStr.data = true) :
    ampEscaped (format_email_html results query nowStr).data = true ∧
      ltgtFree (escape query).data = true ∧
      ∀ r ∈ results,
        ltgtFree (escape (pyOr r.title "No title")).data = true ∧
          ltgtFree (escape (pyOr r.link "")).data = true ∧
          ltgtFree (escape ((pyOr r.snippet "").trim)).data = true :=
  ⟨ampEscaped_format_email_html results query nowStr hnow, ltgtFree_escape _,
    fun _ _ => ⟨ltgtFree_escape _, ltgtFree_escape _, ltgtFree_escape _⟩⟩

theorem format_email_html_escapes_witness :
    ampEscaped ("2026-10-12 13:00 UTC+05:30" : String).data = true ∧
      ampEscaped (format_email_html [⟨some "a<b", some "x&y", some "c>d"⟩]
        "q<&>" "2026-10-12 13:00 UTC+05:30").data = true :=
  ⟨by decide,
    (format_email_html_escapes [⟨some "a<b", some "x&y", some "c>d"⟩]
      "q<&>" "2026-10-12 13:00 UTC+05:30" (by decide)).1⟩

lemma beginsWith_of_append (n m cs : List Char) (h : beginsWith (n ++ m) cs = true) :
    beginsWith n cs = true := by
  induction n generalizing cs with
  | nil => rfl
  | cons a ps ih =>
      cases cs with
      | nil => simp [beginsWith] at h
      | cons c cs2 =>
          simp only [List.cons_append, beginsWith, Bool.and_eq_true] at h ⊢
          exact ⟨h.1, ih cs2 h.2⟩

lemma containsSub_append_right (n a b : List Char) (h : containsSub n b = true) :
    containsSub n (a ++ b) = true := by
  induction a with
  | nil => simpa using h
  | cons c cs ih =>
      simp only [List.cons_append, containsSub, Bool.or_eq_true]
      exact Or.inr ih

lemma containsSub_here (n r : List Char) : containsSub n (n ++ r) = true := by
  cases n with
  | nil =>
      cases r with
      | nil => rfl
      | cons c cs => simp [containsSub, beginsWith]
  | cons a t =>
      simp only [List.cons_append, containsSub, Bool.or_eq_true]
      exact Or.inl (beginsWith_self (a :: t) r)

lemma containsSub_weaken (n m hay : List Char) (h : containsSub (n ++ m) hay = true) :
    containsSub n hay = true := by
  induction hay with
  | nil =>
      simp only [containsSub, List.isEmpty_iff, List.append_eq_nil] at h ⊢
      exact h.1
  | cons c cs ih =>
      simp only [containsSub, Bool.or_eq_true] at h ⊢
      rcases h with h | h
      · exact Or.inl (beginsWith_of_append n m _ h)
      · exact Or.inr (ih h)

lemma containsSub_joinNl (lines : List String) (l : String) (hl : l ∈ lines) :
    containsSub l.data (joinNl lines).data = true := by
  induction lines with
  | nil => cases hl
  | cons x ls ih =>
      cases ls with
      | nil =>
          have hx : l = x := by simpa using hl
          subst hx
          have h0 := containsSub_here l.data []
          simpa using h0
      | cons y ls2 =>
          rcases List.mem_cons.mp hl with rfl | hmem
          · show containsSub l.data ((l ++ "\n" ++ joinNl (y :: ls2))).data = true
            rw [string_data_append, string_data_append, List.append_assoc]
            exact containsSub_here _ _
          · show containsSub l.data ((x ++ "\n" ++ joinNl (y :: ls2))).data = true
            rw [string_data_append]
            exact containsSub_append_right _ _ _ (ih hmem)

lemma hasPair_cons (x y c : Char) (cs : List Char) (h : hasPair x y cs = true) :
    hasPair x y (c :: cs) = true := by
  cases cs with
  | nil => simp [hasPair] at h
  | cons d t =>
      simp only [hasPair, Bool.or_eq_true] at h ⊢
      exact Or.inr h

lemma containsSub_hasPair (x y : Char) (rest cs : List Char)
    (h : containsSub (x :: y :: rest) cs = true) : hasPair x y cs = true := by
  induction cs with
  | nil => simp [containsSub, List.isEmpty] at h
  | cons c t ih =>
      simp only [containsSub, Bool.or_eq_true] at h
      rcases h with h | h
      · cases t with
        | nil => simp [beginsWith] at h
        | cons d t2 =>
            simp only [beginsWith, Bool.and_eq_true] at h
            obtain ⟨hx, hy, _⟩ := h
            have hx2 : x = c := beq_iff_eq.mp hx
            have hy2 : y = d := beq_iff_eq.mp hy
            subst hx2
            subst hy2
            simp [hasPair]
      · exact hasPair_cons x y c t (ih h)

lemma hasPair_notMem (x y : Char) (cs : List Char) (hx : x ∉ cs) :
    hasPair x y cs = false := by
  induction cs with
  | nil => rfl
  | cons c t ih =>
      cases t with
      | nil => rfl
      | cons d t2 =>
          have hc : (c == x) = false :=
            beq_eq_false_iff_ne.mpr fun hcx => hx (hcx ▸ List.mem_cons_self c _)
          have ht : hasPair x y (d :: t2) = false :=
            ih fun hm => hx (List.mem_cons_of_mem _ hm)
          simp [hasPair, hc, ht]

lemma lastChar_mem (cs : List Char) (c : Char) (h : lastChar cs = some c) : c ∈ cs := by
  induction cs with
  | nil => simp [lastChar] at h
  | cons a t ih =>
      cases t with
      | nil =>
          simp only [lastChar, Option.some_inj] at h
          simp [h]
      | cons b t2 => exact List.mem_cons_of_mem _ (ih h)

lemma lastChar_ne_of_notMem (cs : List Char) (x : Char) (h : x ∉ cs) :
    lastChar cs ≠ some x := fun hl => h (lastChar_mem cs x hl)

lemma lastChar_append (a b : List Char) (hb : b ≠ []) :
    lastChar (a ++ b) = lastChar b := by
  induction a with
  | nil => rfl
  | cons c t ih =>
      cases t with
      | nil =>
          cases b with
          | nil => exact absurd rfl hb
          | cons d t2 => rfl
      | cons c2 t2 => exact ih

lemma lastChar_ne_append (a b : List Char) (x : Char)
    (ha : lastChar a ≠ some x) (hb : x ∉ b) : lastChar (a ++ b) ≠ some x := by
  cases b with
  | nil => simpa using ha
  | cons d t =>
      rw [lastChar_append a (d :: t) (by simp)]
      exact lastChar_ne_of_notMem _ _ hb

lemma hasPair_append_false (x y : Char) (a b : List Char)
    (ha : hasPair x y a = false) (hb : hasPair x y b = false)
    (hlast : lastChar a ≠ some x ∨ b.head? ≠ some y) :
    hasPair x y (a ++ b) = false := by
  induction a with
  | nil => simpa using hb
  | cons c t ih =>
      cases t with
      | nil =>
          cases b with
          | nil => rfl
          | cons d t2 =>
              have hcd : ((c == x) && (d == y)) = false := by
                rcases hlast with hl | hl
                · have hc : (c == x) = false :=
                    beq_eq_false_iff_ne.mpr fun hcx => hl (by rw [hcx]; rfl)
                  simp [hc]
                · have hd : (d == y) = false :=
                    beq_eq_false_iff_ne.mpr fun hdy => hl (by rw [hdy]; rfl)
                  simp [hd]
              simpa [hasPair, hcd] using hb
      | cons c2 t2 =>
          simp only [hasPair, Bool.or_eq_false_iff] at ha
          simp only [List.cons_append, hasPair, Bool.or_eq_false_iff]
          exact ⟨ha.1, ih ha.2 hlast⟩

lemma ltgtFree_notMem_lt (cs : List Char) (h : ltgtFree cs = true) : ltChar ∉ cs := by
  intro hm
  simp only [ltgtFree, List.all_eq_true] at h
  have h2 := h ltChar hm
  simp at h2

/-- In the empty-results document, the character `<` is never immediately
followed by `y`, provided `y` does not follow `<` in any of the literal
template fragments and the clock string carries no `<`. -/
lemma empty_doc_no_pair (query nowStr : String) (y : Char)
    (hn : ltChar ∉ nowStr.data)
    (hy1 : hasPair ltChar y "<h2>Job search results: ".data = false)
    (hy3 : hasPair ltChar y "</h2>".data = false)
    (hy5 : hasPair ltChar y "<p>Search run at ".data = false)
    (hy7 : hasPair ltChar y " (IST)</p>".data = false)
    (hy9 : hasPair ltChar y (("<p>No results found.</p>" ++ "\n")
      ++ "<hr/><p>Automation generated - tweak the queries or sources in the script as needed.</p>").data = false) :
    hasPair ltChar y (format_email_html [] query nowStr).data = false := by
  have hq : ltChar ∉ (escape query).data := ltgtFree_notMem_lt _ (ltgtFree_escape query)
  have hA : hasPair ltChar y ("<h2>Job search results: " ++ escape query ++ "</h2>").data
      = false := by
    rw [string_data_append, string_data_append]
    apply hasPair_append_false
    · exact hasPair_append_false _ _ _ _ hy1 (hasPair_notMem _ _ _ hq) (Or.inl (by decide))
    · exact hy3
    · exact Or.inl (lastChar_ne_append _ _ _ (by decide) hq)
  have hB : hasPair ltChar y ("<p>Search run at " ++ nowStr ++ " (IST)</p>").data
      = false := by
    rw [string_data_append, string_data_append]
    apply hasPair_append_false
    · exact hasPair_append_false _ _ _ _ hy5 (hasPair_notMem _ _ _ hn) (Or.inl (by decide))
    · exact hy7
    · exact Or.inl (lastChar_ne_append _ _ _ (by decide) hn)
  have hlastA : lastChar ("<h2>Job search results: " ++ escape query ++ "</h2>").data
      ≠ some ltChar := by
    rw [string_data_append]
    rw [lastChar_append _ _ (by decide)]
    decide
  have hlastB : lastChar ("<p>Search run at " ++ nowStr ++ " (IST)</p>").data
      ≠ some ltChar := by
    rw [string_data_append]
    rw [lastChar_append _ _ (by decide)]
    decide
  simp only [format_email_html, List.isEmpty_nil, if_true, joinNl]
  rw [string_data_append]
  apply hasPair_append_false
  · rw [string_data_append]
    exact hasPair_append_false _ _ _ _ hA rfl (Or.inl hlastA)
  · rw [string_data_append]
    apply hasPair_append_false
    · rw [string_data_append]
      exact hasPair_append_false _ _ _ _ hB rfl (Or.inl hlastB)
    · exact hy9
    · refine Or.inl ?_
      rw [string_data_append, lastChar_append _ _ (by decide)]
      decide
  · refine Or.inl ?_
    rw [string_data_append, lastChar_append _ _ (by decide)]
    decide

/-- C7: on an empty results list the document contains the
`No results found.` notice and no ordered-list markup: neither `<ol>` nor
`<li>` occurs anywhere in it (the fixed-format clock string contains no `<`). -/
theorem format_empty_no_list (query nowStr : String) (hnow : ltChar ∉ nowStr.data) :
    containsSub "No results found.".data (format_email_html [] query nowStr).data = true ∧
      containsSub "<ol>".data (format_email_html [] query nowStr).data = false ∧
      containsSub "<li>".data (format_email_html [] query nowStr).data = false := by
  refine ⟨?_, ?_, ?_⟩
  · simp only [format_email_html, List.isEmpty_nil, if_true, joinNl]
    rw [string_data_append]
    apply containsSub_append_right
    rw [string_data_append]
    apply containsSub_append_right
    decide
  · have hp := empty_doc_no_pair query nowStr 'o' hnow (by decide) (by decide)
      (by decide) (by decide) (by decide)
    exact Bool.eq_false_iff.mpr fun hc =>
      absurd (containsSub_hasPair ltChar 'o' (['l', '>'] : List Char) _ hc) (by simp [hp])
  · have hp := empty_doc_no_pair query nowStr 'l' hnow (by decide) (by decide)
      (by decide) (by decide) (by decide)
    exact Bool.eq_false_iff.mpr fun hc =>
      absurd (containsSub_hasPair ltChar 'l' (['i', '>'] : List Char) _ hc) (by simp [hp])

theorem format_empty_no_list_witness :
    containsSub "No results found.".data
        (format_email_html [] "jobs" "2026-10-12 13:00 UTC+05:30").data = true ∧
      containsSub "<ol>".data
        (format_email_html [] "jobs" "2026-10-12 13:00 UTC+05:30").data = false ∧
      containsSub "<li>".data
        (format_email_html [] "jobs" "2026-10-12 13:00 UTC+05:30").data = false :=
  format_empty_no_list "jobs" "2026-10-12 13:00 UTC+05:30" (by decide)

/-- C8: an entry whose title field is missing is rendered as a hyperlink
whose visible text is exactly the literal `No title`: the document contains
the full anchor `<li><a href="LINK">No title</a>` for that entry. -/
theorem format_missing_title (results : List SearchResult) (query nowStr : String)
    (r : SearchResult) (hr : r ∈ results) (hnone : r.title = none) :
    containsSub ("<li><a href=" ++ qm ++ escape (pyOr r.link "") ++ qm
        ++ ">No title</a>").data
      (format_email_html results query nowStr).data = true := by
  have htitle : escape (pyOr r.title "No title") = "No title" := by
    rw [hnone]
    decide
  cases results with
  | nil => exact absurd hr (List.not_mem_nil r)
  | cons r0 rs =>
      have hsplit : (formatItem r).data
          = ("<li><a href=" ++ qm ++ escape (pyOr r.link "") ++ qm
              ++ ">No title</a>").data
            ++ ("<br/><small>" ++ escape ((pyOr r.snippet "").trim)
              ++ "</small></li>").data := by
        simp [formatItem, htitle, string_data_append, List.append_assoc]
      simp only [format_email_html, List.isEmpty_cons, Bool.false_eq_true, if_false]
      apply containsSub_weaken _ (("<br/><small>" ++ escape ((pyOr r.snippet "").trim)
        ++ "</small></li>").data)
      rw [← hsplit]
      apply containsSub_joinNl
      apply List.mem_append_left
      apply List.mem_append_right
      apply List.mem_append_left
      apply List.mem_append_right
      exact List.mem_map_of_mem _ hr

theorem format_missing_title_witness :
    containsSub ("<li><a href=" ++ qm ++ escape (pyOr (some "http://x") "") ++ qm
        ++ ">No title</a>").data
      (format_email_html [⟨none, some "http://x", some " s "⟩] "jobs" "T").data = true :=
  format_missing_title [⟨none, some "http://x", some " s "⟩] "jobs" "T"
    ⟨none, some "http://x", some " s "⟩ (by simp) rfl

/-- C5, as stated, is false: a first call answered with zero items yields
`N = 0` collected results, yet one call was issued, and `ceil(0/10) = 0 ≠ 1`. -/
theorem gather_calls_ceil_counterexample :
    ¬ (gatherCalls apiEmpty "q" "k" "c" 10).length
        = ((gather_results apiEmpty "q" "k" "c" 10).length + 9) / 10 := by
  decide
